import Mathlib

/-!
# Verification of the u-root `mount` command (cmds/core/mount/mount.go)

Shallow embedding of the single-file Go program. External collaborators
(the mount syscall wrappers `mount.TryMount` / `mount.Mount`, the loop
device primitives behind `loopSetup`, and the file system reads via
`ioutil.ReadFile`) are modelled as function parameters. Pure logic
(the option-translation loop, the convenience-flag bit accumulation,
`getSupportedFilesystem`, `informIfUnknownFS`, and the control flow of
`main`) is translated directly from the source.

Machine integers: the Go `flags` variable has type `uintptr`; all mount
flag constants are below `2 ^ 21` and the only operation is bitwise OR,
which never overflows 64 bits, so `Nat` with `|||` is an exact model.
-/

namespace MountCmd

/-! ## Linux mount-flag constants (golang.org/x/sys/unix) -/

def MS_RDONLY : Nat := 1
def MS_BIND : Nat := 4096
def MS_REC : Nat := 16384
def MS_UNBINDABLE : Nat := 131072
def MS_PRIVATE : Nat := 262144
def MS_SLAVE : Nat := 524288
def MS_SHARED : Nat := 1048576

/-! ## String helpers mirroring the Go standard library -/

/-- Go `unicode.IsSpace` restricted to the code points it accepts
(Latin-1 range: space, tab, newline, vertical tab, form feed,
carriage return, NEL, NBSP). -/
def goIsSpace (c : Char) : Bool :=
  c = ' ' || c = '\t' || c = '\n' || c = '\x0b' || c = '\x0c' || c = '\r' ||
  c = '\x85' || c = '\xa0'

/-- Split a character list at every character satisfying `p`, keeping
empty pieces (the semantics of Go `strings.Split` for a one-character
separator, and of splitting at every whitespace character). -/
def splitCharAux (p : Char → Bool) : List Char → List (List Char)
  | [] => [[]]
  | c :: cs =>
    if p c then [] :: splitCharAux p cs
    else
      match splitCharAux p cs with
      | [] => [[c]]
      | h :: t => (c :: h) :: t

/-- Split a string at every character satisfying `p`, keeping empties. -/
def splitBy (p : Char → Bool) (s : String) : List String :=
  (splitCharAux p s.data).map (fun cs => String.mk cs)

/-- Go `strings.Fields`: split around runs of whitespace, no empty fields. -/
def goFields (s : String) : List String :=
  (splitBy goIsSpace s).filter (fun t => t ≠ "")

/-- Go `strings.Split(s, "\n")`. -/
def splitLines (s : String) : List String :=
  splitBy (fun c => c = '\n') s

/-- Go `strings.Join(l, ",")`. -/
def joinComma : List String → String
  | [] => ""
  | [s] => s
  | s :: rest => s ++ "," ++ joinComma rest

/-! ## Data model

`ReadFile` models `ioutil.ReadFile`: contents on success, an error
message on failure.  `LoopSetup` models `loopSetup` (which wraps the
external `loop.FindDevice` / `loop.SetFile` collaborators): the backing
file name in, the loop device path out, or an error. -/

/-- Model of `ioutil.ReadFile`: path to contents or error. -/
def ReadFile : Type := String → Except String String

/-- Model of `loopSetup` (external loop-device collaborator):
backing file name to loop-device path or error. -/
def LoopSetup : Type := String → Except String String

/-- Model of the package-level `opts` table (`KnownOptionTable`):
option token to mount-flag bit, `none` for unknown tokens. -/
def OptsTable : Type := String → Option Nat

/-- Model of `mount.TryMount`: device, path, data, flags. -/
def TryMountFn : Type := String → String → String → Nat → Except String Unit

/-- Model of `mount.Mount`: device, path, fstype, data, flags. -/
def MountFn : Type := String → String → String → String → Nat → Except String Unit

/-- The parsed command line: the boolean flag variables of the program,
the `-t` value, the accumulated `-o` option tokens, and the positional
arguments (`flag.Args()`). -/
structure Invoc where
  ro : Bool := false
  fsType : String := ""
  bind : Bool := false
  rbind : Bool := false
  makeShared : Bool := false
  makeSlave : Bool := false
  makePrivate : Bool := false
  makeUnbindable : Bool := false
  makeRShared : Bool := false
  makeRSlave : Bool := false
  makeRPrivate : Bool := false
  makeRUnbindable : Bool := false
  options : List String := []
  args : List String := []
deriving Repr, DecidableEq

/-- Observable outcome of one invocation of `main`. -/
inductive Outcome where
  /-- A mount-table file was readable: its contents are printed,
  `os.Exit(0)`. -/
  | listTable (contents : String)
  /-- Fewer than two positional arguments: usage text, `os.Exit(1)`. -/
  | usage
  /-- `loopSetup` failed: `log.Fatal`, which exits with status 1. -/
  | loopFatal (err : String)
  /-- The mount primitive succeeded: records the request that was made
  (device, path, type, joined data options, flags) and the list of
  backing-file arguments passed to `loopSetup`, in call order. -/
  | mountOK (dev path typ data : String) (flags : Nat) (loopCalls : List String)
  /-- `mount.TryMount` failed: `log.Fatalf`, exit status 1. -/
  | tryMountFatal (err : String)
  /-- `mount.Mount` failed: the error is logged, `informIfUnknownFS`
  runs (`hint` is the list of known types if the hint was printed,
  `none` if nothing was printed), then `os.Exit(1)`. -/
  | mountTypedFail (err : String) (hint : Option (List String))
deriving Repr, DecidableEq

/-- Process exit status of each outcome. -/
def exitCode : Outcome → Nat
  | .listTable _ => 0
  | .usage => 1
  | .loopFatal _ => 1
  | .mountOK _ _ _ _ _ _ => 0
  | .tryMountFatal _ => 1
  | .mountTypedFail _ _ => 1

/-! ## The program -/

/-- The fixed-priority mount-table listing paths of `main`. -/
def mountTablePaths : List String :=
  ["/proc/self/mounts", "/proc/mounts", "/etc/mtab"]

/-- The listing loop at the top of `main`: return the contents of the
first readable path, `none` if every read fails. -/
def firstReadable (readFile : ReadFile) : List String → Option String
  | [] => none
  | p :: rest =>
    match readFile p with
    | .ok b => some b
    | .error _ => firstReadable readFile rest

/-- The `for _, option := range options` loop of `main`.  Arguments
after the token list: current device, flags accumulator, data
accumulator.  Returns the list of backing files passed to `loopSetup`
(in call order) together with either the fatal loop-setup error or the
final (device, flags, data). -/
def runOptions (tbl : OptsTable) (ls : LoopSetup) :
    List String → String → Nat → List String →
    List String × Except String (String × Nat × List String)
  | [], dev, flags, data => ([], .ok (dev, flags, data))
  | o :: rest, dev, flags, data =>
    if o = "loop" then
      match ls dev with
      | .error e => ([dev], .error e)
      | .ok ld =>
        let r := runOptions tbl ls rest ld flags data
        (dev :: r.1, r.2)
    else
      match tbl o with
      | some f => runOptions tbl ls rest dev (flags ||| f) data
      | none => runOptions tbl ls rest dev flags (data ++ [o])

/-- One Go statement `if p { flags |= b }`. -/
def condOr (p : Bool) (x b : Nat) : Nat :=
  if p then x ||| b else x

/-- The condition of the last convenience `if` of `main`:
`*rbind || *makeRShared || *makeRSlave || *makeRPrivate ||
*makeRUnbindable`. -/
def recAny (c : Invoc) : Bool :=
  c.rbind || c.makeRShared || c.makeRSlave || c.makeRPrivate ||
    c.makeRUnbindable

/-- The block of convenience-flag `if` statements of `main`, applied
after the token loop, in source order. -/
def applyConvenience (c : Invoc) (flags : Nat) : Nat :=
  let f1 := condOr c.ro flags MS_RDONLY
  let f2 := condOr (c.bind || c.rbind) f1 MS_BIND
  let f3 := condOr (c.makeShared || c.makeRShared) f2 MS_SHARED
  let f4 := condOr (c.makeSlave || c.makeRSlave) f3 MS_SLAVE
  let f5 := condOr (c.makePrivate || c.makeRPrivate) f4 MS_PRIVATE
  let f6 := condOr (c.makeUnbindable || c.makeRUnbindable) f5 MS_UNBINDABLE
  condOr (recAny c) f6 (MS_BIND ||| MS_REC)

/-- `dev := a[0]` (reached only when `len(a) >= 2`). -/
def argDev (args : List String) : String := args.getD 0 ""

/-- `var path string; if len(a) > 1 { path = a[1] }`. -/
def argPath (args : List String) : String :=
  if 1 < args.length then args.getD 1 "" else ""

/-- `getSupportedFilesystem`: read `/proc/filesystems`, split into
lines, take the last whitespace-separated field of each non-blank line,
set `known` if any of them equals `originFS`.  Result mirrors the Go
triple `([]string, bool, error)`. -/
def getSupportedFilesystem (readFile : ReadFile) (originFS : String) :
    List String × Bool × Option String :=
  match readFile "/proc/filesystems" with
  | .error e => ([], false, some e)
  | .ok fs =>
    let r := (splitLines fs).foldl
      (fun (acc : List String × Bool) f =>
        match (goFields f).getLast? with
        | none => acc
        | some lastF => (acc.1 ++ [lastF], acc.2 || (lastF == originFS)))
      ([], false)
    (r.1, r.2, none)

/-- `informIfUnknownFS`: `none` when nothing is printed (probe failed,
or the type is known); `some knownFS` when the hint line listing the
known types is printed. -/
def informIfUnknownFS (readFile : ReadFile) (originFS : String) :
    Option (List String) :=
  match getSupportedFilesystem readFile originFS with
  | (_, _, some _) => none
  | (knownFS, known, none) => if known then none else some knownFS

/-- The whole of `main`, parameterised by the external collaborators. -/
def mainRun (readFile : ReadFile) (tbl : OptsTable) (ls : LoopSetup)
    (tryMount : TryMountFn) (mountT : MountFn) (inv : Invoc) : Outcome :=
  match firstReadable readFile mountTablePaths with
  | some b => .listTable b
  | none =>
    if inv.args.length < 2 then .usage
    else
      match runOptions tbl ls inv.options (argDev inv.args) 0 [] with
      | (_, .error e) => .loopFatal e
      | (tr, .ok (dev, flags0, data)) =>
        if inv.fsType = "" then
          match tryMount dev (argPath inv.args) (joinComma data)
              (applyConvenience inv flags0) with
          | .error e => .tryMountFatal e
          | .ok _ =>
            .mountOK dev (argPath inv.args) "" (joinComma data)
              (applyConvenience inv flags0) tr
        else
          match mountT dev (argPath inv.args) inv.fsType (joinComma data)
              (applyConvenience inv flags0) with
          | .error e =>
            .mountTypedFail e (informIfUnknownFS readFile inv.fsType)
          | .ok _ =>
            .mountOK dev (argPath inv.args) inv.fsType (joinComma data)
              (applyConvenience inv flags0) tr

/-! ## Specification-side expressions -/

/-- The flag bit a token contributes: its `opts` entry, or `0` when it
is not in the table. -/
def tblBit (tbl : OptsTable) (o : String) : Nat :=
  match tbl o with
  | some f => f
  | none => 0

/-- Bitwise OR of the `opts` entries of the tokens present in the
table, in list order. -/
def flagsOr (tbl : OptsTable) : List String → Nat
  | [] => 0
  | o :: rest => tblBit tbl o ||| flagsOr tbl rest

/-- The last whitespace-separated field of each non-blank line. -/
def lastFields (s : String) : List String :=
  (splitLines s).filterMap (fun f => (goFields f).getLast?)

/-! ## Helper lemmas -/

lemma or_or_self (x b : Nat) : x ||| b ||| b = x ||| b := by
  rw [Nat.or_assoc, Nat.or_self]

lemma or_includes_mono (x c b : Nat) (h : x ||| b = x) :
    x ||| c ||| b = x ||| c := by
  rw [Nat.or_assoc, Nat.or_comm c b, ← Nat.or_assoc, h]

lemma or_includes_if (p : Prop) [Decidable p] (x c b : Nat)
    (h : x ||| b = x) :
    (if p then x ||| c else x) ||| b = (if p then x ||| c else x) := by
  split
  · exact or_includes_mono x c b h
  · exact h

lemma condOr_true (x b : Nat) : condOr true x b = x ||| b := rfl

lemma condOr_includes (p : Bool) (x c b : Nat) (h : x ||| b = x) :
    condOr p x c ||| b = condOr p x c := by
  cases p
  · simpa [condOr] using h
  · simpa [condOr] using or_includes_mono x c b h

lemma flagsOr_perm (tbl : OptsTable) {l l' : List String}
    (h : l.Perm l') : flagsOr tbl l = flagsOr tbl l' := by
  induction h with
  | nil => rfl
  | cons x _ ih => simp only [flagsOr, ih]
  | swap x y l =>
      simp only [flagsOr, ← Nat.or_assoc, Nat.or_comm (tblBit tbl y)]
  | trans _ _ ih1 ih2 => rw [ih1, ih2]

lemma flagsOr_cons_idem (tbl : OptsTable) (o : String) (l : List String) :
    flagsOr tbl (o :: o :: l) = flagsOr tbl (o :: l) := by
  simp only [flagsOr, ← Nat.or_assoc, Nat.or_self]

/-- On a token list without `"loop"`, the option loop makes no
`loopSetup` call, keeps the device, ORs the table bits of the known
tokens into the flags accumulator and appends the unknown tokens to the
data accumulator. -/
lemma runOptions_no_loop (tbl : OptsTable) (ls : LoopSetup) :
    ∀ (l : List String), "loop" ∉ l → ∀ (dev : String) (f0 : Nat)
      (d0 : List String),
      runOptions tbl ls l dev f0 d0 =
        ([], .ok (dev, f0 ||| flagsOr tbl l,
          d0 ++ l.filter (fun o => (tbl o).isNone)))
  | [], _, dev, f0, d0 => by
      simp [runOptions, flagsOr]
  | o :: rest, h, dev, f0, d0 => by
      have ho : ¬ o = "loop" := fun he => h (he ▸ List.mem_cons_self o rest)
      have hrest : "loop" ∉ rest := fun hm => h (List.mem_cons_of_mem o hm)
      rw [runOptions, if_neg ho]
      cases htbl : tbl o with
      | some f =>
          show runOptions tbl ls rest dev (f0 ||| f) d0 = _
          rw [runOptions_no_loop tbl ls rest hrest dev (f0 ||| f) d0]
          simp [flagsOr, tblBit, htbl, Nat.or_assoc, List.filter_cons]
      | none =>
          show runOptions tbl ls rest dev f0 (d0 ++ [o]) = _
          rw [runOptions_no_loop tbl ls rest hrest dev f0 (d0 ++ [o])]
          simp [flagsOr, tblBit, htbl, List.filter_cons]

/-- Master characterisation of one successful run of the option loop:
the data accumulator collects exactly the unknown non-loop tokens in
order, the flags accumulator collects exactly the table bits of the
non-loop tokens, `loopSetup` is called once per occurrence of the
`"loop"` token, the device is unchanged when no call was made, and
after at least one call the device is the result of the last call. -/
lemma runOptions_ok (tbl : OptsTable) (ls : LoopSetup) (l : List String) :
    ∀ (dev : String) (f0 : Nat) (d0 : List String) (tr : List String)
      (dev' : String) (flags : Nat) (data : List String),
      runOptions tbl ls l dev f0 d0 = (tr, .ok (dev', flags, data)) →
      data = d0 ++ l.filter (fun o => decide (o ≠ "loop") && (tbl o).isNone) ∧
      flags = f0 ||| flagsOr tbl (l.filter (fun o => decide (o ≠ "loop"))) ∧
      tr.length = l.countP (fun o => o == "loop") ∧
      (tr = [] → dev' = dev) ∧
      (∀ fn, tr.getLast? = some fn → ls fn = .ok dev') := by
  induction l with
  | nil =>
      intro dev f0 d0 tr dev' flags data h
      simp only [runOptions, Prod.mk.injEq, Except.ok.injEq] at h
      obtain ⟨h1, h2, h3, h4⟩ := h
      subst h1; subst h2; subst h3; subst h4
      simp [flagsOr]
  | cons o rest ih =>
      intro dev f0 d0 tr dev' flags data h
      by_cases ho : o = "loop"
      · subst ho
        rw [runOptions, if_pos rfl] at h
        cases hls : ls dev with
        | error e => rw [hls] at h; simp at h
        | ok ld =>
            rw [hls] at h
            have h2 : (dev :: (runOptions tbl ls rest ld f0 d0).1,
                (runOptions tbl ls rest ld f0 d0).2) =
                (tr, Except.ok (dev', flags, data)) := h
            rcases hrec : runOptions tbl ls rest ld f0 d0 with ⟨tr', r'⟩
            rw [hrec] at h2
            simp only [Prod.mk.injEq] at h2
            obtain ⟨htr, hr⟩ := h2
            subst htr
            obtain ⟨c1, c2, c3, c4, c5⟩ :=
              ih ld f0 d0 tr' dev' flags data (by rw [hrec, hr])
            refine ⟨?_, ?_, ?_, ?_, ?_⟩
            · simpa using c1
            · simpa using c2
            · simpa [List.countP_cons] using c3
            · intro hx; exact absurd hx (by simp)
            · intro fn hfn
              cases htr' : tr' with
              | nil =>
                  subst htr'
                  simp only [List.getLast?_singleton, Option.some.injEq] at hfn
                  subst hfn
                  rw [hls, c4 rfl]
              | cons a as =>
                  subst htr'
                  rw [List.getLast?_cons_cons] at hfn
                  exact c5 fn hfn
      · rw [runOptions, if_neg ho] at h
        have hfc :
            List.filter (fun o => decide (o ≠ "loop") && (tbl o).isNone)
              (o :: rest) =
            if (tbl o).isNone then
              o :: rest.filter (fun o => decide (o ≠ "loop") && (tbl o).isNone)
            else rest.filter (fun o => decide (o ≠ "loop") && (tbl o).isNone) := by
          by_cases hn : (tbl o).isNone <;> simp [List.filter_cons, ho, hn]
        cases htbl : tbl o with
        | some f =>
            rw [htbl] at h
            obtain ⟨c1, c2, c3, c4, c5⟩ :=
              ih dev (f0 ||| f) d0 tr dev' flags data h
            refine ⟨?_, ?_, ?_, c4, c5⟩
            · rw [c1, hfc]; simp [htbl]
            · rw [c2]
              simp [List.filter_cons, ho, flagsOr, tblBit, htbl, Nat.or_assoc]
            · simpa [List.countP_cons, ho] using c3
        | none =>
            rw [htbl] at h
            obtain ⟨c1, c2, c3, c4, c5⟩ :=
              ih dev f0 (d0 ++ [o]) tr dev' flags data h
            refine ⟨?_, ?_, ?_, c4, c5⟩
            · rw [c1, hfc]; simp [htbl]
            · rw [c2]
              simp [List.filter_cons, ho, flagsOr, tblBit, htbl]
            · simpa [List.countP_cons, ho] using c3

/-- The fold of `getSupportedFilesystem` collects the last field of
every non-blank line in order and reports membership of the queried
type. -/
lemma gsf_fold (t : String) (lines : List String) :
    ∀ (acc : List String) (k : Bool),
      lines.foldl
        (fun (acc : List String × Bool) f =>
          match (goFields f).getLast? with
          | none => acc
          | some lastF => (acc.1 ++ [lastF], acc.2 || (lastF == t)))
        (acc, k) =
      (acc ++ lines.filterMap (fun f => (goFields f).getLast?),
        k || decide (t ∈ lines.filterMap (fun f => (goFields f).getLast?))) := by
  induction lines with
  | nil => intro acc k; simp
  | cons line rest ih =>
      intro acc k
      rw [List.foldl_cons]
      cases hgl : (goFields line).getLast? with
      | none =>
          show rest.foldl _ (acc, k) = _
          rw [ih acc k]
          simp [List.filterMap_cons, hgl]
      | some lastF =>
          show rest.foldl _ (acc ++ [lastF], k || (lastF == t)) = _
          rw [ih (acc ++ [lastF]) (k || (lastF == t))]
          refine Prod.ext ?_ ?_
          · simp [List.filterMap_cons, hgl]
          · simp only [List.filterMap_cons, hgl]
            rw [Bool.or_assoc, Bool.eq_iff_iff]
            simp only [Bool.or_eq_true, beq_iff_eq, decide_eq_true_eq,
              List.mem_cons]
            tauto

/-- Successful read: `getSupportedFilesystem` returns the last fields
of the non-blank lines in line order, the membership bit for the
queried type, and a nil error. -/
lemma gsf_ok (readFile : ReadFile) (content t : String)
    (h : readFile "/proc/filesystems" = .ok content) :
    getSupportedFilesystem readFile t =
      (lastFields content, decide (t ∈ lastFields content), none) := by
  rw [getSupportedFilesystem, h]
  show (((splitLines content).foldl _ ([], false)).1,
      ((splitLines content).foldl _ ([], false)).2, (none : Option String)) = _
  rw [gsf_fold t (splitLines content) [] false]
  simp [lastFields]

/-- Failed read: `getSupportedFilesystem` passes the error through,
with an empty list and `known = false`. -/
lemma gsf_error (readFile : ReadFile) (msg t : String)
    (h : readFile "/proc/filesystems" = .error msg) :
    getSupportedFilesystem readFile t = ([], false, some msg) := by
  rw [getSupportedFilesystem, h]

/-- `informIfUnknownFS` prints the hint exactly when the probe read
succeeds and the queried type is not a known one. -/
lemma informIfUnknownFS_ok (readFile : ReadFile) (content t : String)
    (h : readFile "/proc/filesystems" = .ok content) :
    informIfUnknownFS readFile t =
      if t ∈ lastFields content then none else some (lastFields content) := by
  rw [informIfUnknownFS, gsf_ok readFile content t h]
  by_cases hm : t ∈ lastFields content <;> simp [hm]

/-- `informIfUnknownFS` prints nothing when the probe read fails. -/
lemma informIfUnknownFS_error (readFile : ReadFile) (msg t : String)
    (h : readFile "/proc/filesystems" = .error msg) :
    informIfUnknownFS readFile t = none := by
  rw [informIfUnknownFS, gsf_error readFile msg t h]

/-- `flagsOr` ignores tokens that are not in the table. -/
lemma flagsOr_filter_isSome (tbl : OptsTable) (l : List String) :
    flagsOr tbl l = flagsOr tbl (l.filter (fun o => (tbl o).isSome)) := by
  induction l with
  | nil => rfl
  | cons o rest ih =>
      cases htbl : tbl o with
      | some f => simp [flagsOr, List.filter_cons, htbl, ih]
      | none => simp [flagsOr, tblBit, htbl, List.filter_cons, ih]

/-- Each entry of a `filterMap` of last fields comes from a line with
at least one field, so blank lines contribute no entry. -/
lemma length_filterMap_getLast (lines : List String) :
    (lines.filterMap (fun f => (goFields f).getLast?)).length =
    (lines.filter (fun f => !(goFields f).isEmpty)).length := by
  induction lines with
  | nil => rfl
  | cons line rest ih =>
      cases hgf : goFields line with
      | nil => simp [List.filterMap_cons, List.filter_cons, hgf, ih]
      | cons a as =>
          obtain ⟨b, hb⟩ : ∃ b, (a :: as).getLast? = some b := by
            cases h : (a :: as).getLast? with
            | some b => exact ⟨b, rfl⟩
            | none => simp at h
          simp [List.filterMap_cons, List.filter_cons, hgf, hb, ih]

/-- Listing mode fires: `main` prints and exits before anything else. -/
lemma mainRun_list (readFile : ReadFile) (tbl : OptsTable) (ls : LoopSetup)
    (tm : TryMountFn) (mt : MountFn) (inv : Invoc) (b : String)
    (h : firstReadable readFile mountTablePaths = some b) :
    mainRun readFile tbl ls tm mt inv = .listTable b := by
  simp [mainRun, h]

/-- Reduction of `main` in the explicit-type path when the mount
primitive fails. -/
lemma mainRun_typed_fail (readFile : ReadFile) (tbl : OptsTable)
    (ls : LoopSetup) (tm : TryMountFn) (mt : MountFn) (inv : Invoc)
    (e dev' : String) (flags : Nat) (tr data : List String)
    (hfr : firstReadable readFile mountTablePaths = none)
    (hargs : ¬ inv.args.length < 2)
    (ht : ¬ inv.fsType = "")
    (hro : runOptions tbl ls inv.options (argDev inv.args) 0 [] =
      (tr, .ok (dev', flags, data)))
    (hm : mt dev' (argPath inv.args) inv.fsType (joinComma data)
      (applyConvenience inv flags) = .error e) :
    mainRun readFile tbl ls tm mt inv =
      .mountTypedFail e (informIfUnknownFS readFile inv.fsType) := by
  simp [mainRun, hfr, if_neg hargs, hro, if_neg ht, hm]

end MountCmd

namespace MountCmd

/-! ## Concrete collaborators used by the witnesses and the
counterexample -/

/-- Only the first-priority mount-table path is readable. -/
def rfListW : ReadFile := fun p =>
  if p = "/proc/self/mounts" then .ok "/dev/sda1 / ext4 rw 0 0\n"
  else .error "ENOENT"

/-- Only `/proc/filesystems` is readable. -/
def rfProcW : ReadFile := fun p =>
  if p = "/proc/filesystems" then .ok "nodev\tsysfs\next4\n"
  else .error "ENOENT"

/-- Only `/proc/filesystems` is readable; its listing has a blank
line. -/
def rfBlankW : ReadFile := fun p =>
  if p = "/proc/filesystems" then .ok "nodev\tsysfs\n\next4\n"
  else .error "ENOENT"

/-- No file is readable. -/
def rfNoneW : ReadFile := fun _ => .error "ENOENT"

/-- A small option table. -/
def tblW : OptsTable := fun o =>
  if o = "ro" then some MS_RDONLY
  else if o = "noexec" then some 8
  else none

/-- A loop binder that always succeeds. -/
def lsW : LoopSetup := fun s => .ok (s ++ ":loop0")

/-- A type-guessing mount primitive that always succeeds. -/
def tmW : TryMountFn := fun _ _ _ _ => .ok ()

/-- An explicit-type mount primitive that always fails. -/
def mtW : MountFn := fun _ _ _ _ _ => .error "mount failed"

/-- `mount -t ext9 /dev/sda1 /mnt`. -/
def invC6 : Invoc := { fsType := "ext9", args := ["/dev/sda1", "/mnt"] }

end MountCmd

namespace MountCmd

/-! ## The claims -/

/-- **C1**: The mount-table listing short-circuit runs before flag
parsing and argument-count validation: whenever at least one of
`/proc/self/mounts`, `/proc/mounts`, `/etc/mtab` is readable, `main`
prints the contents of the first readable one in that fixed priority
order and exits with status 0, for every invocation (any flags, any
number of positional arguments, zero included), and the outcome does
not depend on the mount primitives, so no mount is attempted. -/
theorem C1_listing_short_circuit (readFile : ReadFile) (tbl : OptsTable)
    (ls : LoopSetup) (tm : TryMountFn) (mt : MountFn) (inv : Invoc)
    (h : (∃ b, readFile "/proc/self/mounts" = .ok b) ∨
      (∃ b, readFile "/proc/mounts" = .ok b) ∨
      (∃ b, readFile "/etc/mtab" = .ok b)) :
    ∃ b, firstReadable readFile mountTablePaths = some b ∧
      mainRun readFile tbl ls tm mt inv = .listTable b ∧
      exitCode (Outcome.listTable b) = 0 ∧
      (∀ c, readFile "/proc/self/mounts" = .ok c → b = c) ∧
      (∀ e c, readFile "/proc/self/mounts" = .error e →
        readFile "/proc/mounts" = .ok c → b = c) ∧
      (∀ e e' c, readFile "/proc/self/mounts" = .error e →
        readFile "/proc/mounts" = .error e' →
        readFile "/etc/mtab" = .ok c → b = c) ∧
      (∀ (tm' : TryMountFn) (mt' : MountFn),
        mainRun readFile tbl ls tm' mt' inv = .listTable b) := by
  cases h1 : readFile "/proc/self/mounts" with
  | ok b =>
      have hfr : firstReadable readFile mountTablePaths = some b := by
        simp [firstReadable, mountTablePaths, h1]
      refine ⟨b, hfr, mainRun_list readFile tbl ls tm mt inv b hfr, rfl,
        ?_, ?_, ?_, fun tm' mt' => mainRun_list readFile tbl ls tm' mt' inv b hfr⟩
      · intro c hc; exact Except.ok.inj hc
      · intro e c he _; exact Except.noConfusion he
      · intro e e' c he _ _; exact Except.noConfusion he
  | error e1 =>
      cases h2 : readFile "/proc/mounts" with
      | ok b =>
          have hfr : firstReadable readFile mountTablePaths = some b := by
            simp [firstReadable, mountTablePaths, h1, h2]
          refine ⟨b, hfr, mainRun_list readFile tbl ls tm mt inv b hfr, rfl,
            ?_, ?_, ?_,
            fun tm' mt' => mainRun_list readFile tbl ls tm' mt' inv b hfr⟩
          · intro c hc; exact Except.noConfusion hc
          · intro e c _ hc; exact Except.ok.inj hc
          · intro e e' c _ he _; exact Except.noConfusion he
      | error e2 =>
          cases h3 : readFile "/etc/mtab" with
          | ok b =>
              have hfr : firstReadable readFile mountTablePaths = some b := by
                simp [firstReadable, mountTablePaths, h1, h2, h3]
              refine ⟨b, hfr, mainRun_list readFile tbl ls tm mt inv b hfr,
                rfl, ?_, ?_, ?_,
                fun tm' mt' => mainRun_list readFile tbl ls tm' mt' inv b hfr⟩
              · intro c hc; exact Except.noConfusion hc
              · intro e c _ hc; exact Except.noConfusion hc
              · intro e e' c _ _ hc; exact Except.ok.inj hc
          | error e3 =>
              exfalso
              rcases h with ⟨b, hb⟩ | ⟨b, hb⟩ | ⟨b, hb⟩
              · rw [h1] at hb; exact Except.noConfusion hb
              · rw [h2] at hb; exact Except.noConfusion hb
              · rw [h3] at hb; exact Except.noConfusion hb

/-- Witness for C1: zero positional arguments, readable first-priority
file. -/
theorem C1_listing_short_circuit_witness :
    ∃ b, firstReadable rfListW mountTablePaths = some b ∧
      mainRun rfListW tblW lsW tmW mtW { args := [] } = .listTable b ∧
      exitCode (Outcome.listTable b) = 0 ∧
      (∀ c, rfListW "/proc/self/mounts" = .ok c → b = c) ∧
      (∀ e c, rfListW "/proc/self/mounts" = .error e →
        rfListW "/proc/mounts" = .ok c → b = c) ∧
      (∀ e e' c, rfListW "/proc/self/mounts" = .error e →
        rfListW "/proc/mounts" = .error e' →
        rfListW "/etc/mtab" = .ok c → b = c) ∧
      (∀ (tm' : TryMountFn) (mt' : MountFn),
        mainRun rfListW tblW lsW tm' mt' { args := [] } = .listTable b) :=
  C1_listing_short_circuit rfListW tblW lsW tmW mtW { args := [] }
    (Or.inl ⟨"/dev/sda1 / ext4 rw 0 0\n", rfl⟩)

/-- C2 as stated is false on the code: with the accumulated option
tokens `["loop", "loop"]` (from `-o loop,loop`) the token loop calls
`loopSetup` once per occurrence, i.e. twice, not exactly once. -/
theorem C2_counterexample :
    "loop" ∈ (["loop", "loop"] : List String) ∧
    (runOptions tblW lsW ["loop", "loop"] "backing.img" 0 []).1.length = 2 ∧
    ¬ (runOptions tblW lsW ["loop", "loop"] "backing.img" 0 []).1.length = 1 := by
  have h2 : (runOptions tblW lsW ["loop", "loop"] "backing.img" 0 []).1.length
      = 2 := rfl
  exact ⟨by simp, h2, by rw [h2]; decide⟩

/-- **C2** (amended): the token loop makes exactly one `loopSetup`
call per occurrence of the token `"loop"`; whenever the sequence
contains `"loop"` and the loop completes successfully, the device
handed on to the mount primitive is the loop-device path returned by
the last `loopSetup` call, not the original device argument. -/
theorem C2_loop_bind_per_occurrence (tbl : OptsTable) (ls : LoopSetup)
    (l : List String) (dev dev' : String) (flags : Nat)
    (tr data : List String)
    (hmem : "loop" ∈ l)
    (h : runOptions tbl ls l dev 0 [] = (tr, .ok (dev', flags, data))) :
    tr.length = l.countP (fun o => o == "loop") ∧
    ∃ fn, tr.getLast? = some fn ∧ ls fn = .ok dev' := by
  obtain ⟨_, _, c3, _, c5⟩ :=
    runOptions_ok tbl ls l dev 0 [] tr dev' flags data h
  refine ⟨c3, ?_⟩
  have hpos : 0 < l.countP (fun o => o == "loop") :=
    List.countP_pos_iff.mpr ⟨"loop", hmem, by simp⟩
  have htr : tr ≠ [] := by
    intro hnil
    rw [hnil] at c3
    simp only [List.length_nil] at c3
    omega
  obtain ⟨fn, hfn⟩ := Option.isSome_iff_exists.mp (List.getLast?_isSome.mpr htr)
  exact ⟨fn, hfn, c5 fn hfn⟩

/-- Witness for the amended C2: one `"loop"` token, one call, device
replaced by its result. -/
theorem C2_loop_bind_per_occurrence_witness :
    (["backing.img"] : List String).length =
      (["loop"] : List String).countP (fun o => o == "loop") ∧
    ∃ fn, (["backing.img"] : List String).getLast? = some fn ∧
      lsW fn = .ok "backing.img:loop0" :=
  C2_loop_bind_per_occurrence tblW lsW ["loop"] "backing.img"
    "backing.img:loop0" 0 ["backing.img"] [] (by simp) rfl

/-- **C3**: for option sequences without `"loop"`, the flags bitmask
produced by the token loop equals the OR of the table entries of the
tokens present in the table; that value is invariant under reordering
of the tokens, and a repeated token contributes the same bitmask as a
single occurrence. -/
theorem C3_flags_or_comm_idem (tbl : OptsTable) (ls : LoopSetup)
    (l l' : List String) (dev o : String)
    (h : "loop" ∉ l) (hperm : l.Perm l') :
    (∃ data, runOptions tbl ls l dev 0 [] =
      ([], .ok (dev, flagsOr tbl l, data))) ∧
    flagsOr tbl l = flagsOr tbl l' ∧
    flagsOr tbl (o :: o :: l) = flagsOr tbl (o :: l) := by
  refine ⟨⟨l.filter (fun o => (tbl o).isNone), ?_⟩,
    flagsOr_perm tbl hperm, flagsOr_cons_idem tbl o l⟩
  rw [runOptions_no_loop tbl ls l h dev 0 []]
  simp

/-- Witness for C3. -/
theorem C3_flags_or_comm_idem_witness :
    (∃ data, runOptions tblW lsW ["ro", "xx"] "/dev/sda1" 0 [] =
      ([], .ok ("/dev/sda1", flagsOr tblW ["ro", "xx"], data))) ∧
    flagsOr tblW ["ro", "xx"] = flagsOr tblW ["xx", "ro"] ∧
    flagsOr tblW ("noexec" :: "noexec" :: ["ro", "xx"]) =
      flagsOr tblW ("noexec" :: ["ro", "xx"]) :=
  C3_flags_or_comm_idem tblW lsW ["ro", "xx"] ["xx", "ro"] "/dev/sda1"
    "noexec" (by decide) (List.Perm.swap "xx" "ro" [])

/-- **C4**: tokens that are neither `"loop"` nor present in the table
end up in the data options in their original relative order, are
comma-joined, and contribute nothing to the flags bitmask: the flags
are determined by the known non-loop tokens alone. -/
theorem C4_unknown_tokens (tbl : OptsTable) (ls : LoopSetup)
    (l : List String) (dev dev' : String) (flags : Nat)
    (tr data : List String)
    (h : runOptions tbl ls l dev 0 [] = (tr, .ok (dev', flags, data))) :
    data = l.filter (fun o => decide (o ≠ "loop") && (tbl o).isNone) ∧
    joinComma data =
      joinComma (l.filter (fun o => decide (o ≠ "loop") && (tbl o).isNone)) ∧
    flags = flagsOr tbl
      ((l.filter (fun o => decide (o ≠ "loop"))).filter
        (fun o => (tbl o).isSome)) := by
  obtain ⟨c1, c2, _, _, _⟩ :=
    runOptions_ok tbl ls l dev 0 [] tr dev' flags data h
  have hd : data = l.filter (fun o => decide (o ≠ "loop") && (tbl o).isNone) := by
    simpa using c1
  refine ⟨hd, by rw [hd], ?_⟩
  rw [c2, ← flagsOr_filter_isSome]
  simp

/-- Witness for C4: `-o ro,foo,loop,bar` with `ro` known and `foo`,
`bar` unknown. -/
theorem C4_unknown_tokens_witness :
    (["foo", "bar"] : List String) =
      (["ro", "foo", "loop", "bar"] : List String).filter
        (fun o => decide (o ≠ "loop") && (tblW o).isNone) ∧
    joinComma ["foo", "bar"] =
      joinComma ((["ro", "foo", "loop", "bar"] : List String).filter
        (fun o => decide (o ≠ "loop") && (tblW o).isNone)) ∧
    1 = flagsOr tblW
      (((["ro", "foo", "loop", "bar"] : List String).filter
        (fun o => decide (o ≠ "loop"))).filter (fun o => (tblW o).isSome)) :=
  C4_unknown_tokens tblW lsW ["ro", "foo", "loop", "bar"] "img" "img:loop0"
    1 ["img"] ["foo", "bar"] rfl

/-- **C5**: any single recursive convenience flag puts both the BIND
and REC bits in the final bitmask together with the flag's own
propagation bit; with several recursive flags set, the combined
BIND|REC pair is contributed exactly once (OR is idempotent), by the
fixed-order convenience block applied after the token loop. -/
theorem C5_recursive_convenience (c : Invoc) (f0 : Nat)
    (h : recAny c = true) :
    applyConvenience c f0 ||| (MS_BIND ||| MS_REC) = applyConvenience c f0 ∧
    (c.rbind = true →
      applyConvenience c f0 ||| MS_BIND = applyConvenience c f0) ∧
    (c.makeRShared = true →
      applyConvenience c f0 ||| MS_SHARED = applyConvenience c f0) ∧
    (c.makeRSlave = true →
      applyConvenience c f0 ||| MS_SLAVE = applyConvenience c f0) ∧
    (c.makeRPrivate = true →
      applyConvenience c f0 ||| MS_PRIVATE = applyConvenience c f0) ∧
    (c.makeRUnbindable = true →
      applyConvenience c f0 ||| MS_UNBINDABLE = applyConvenience c f0) := by
  refine ⟨?_, ?_, ?_, ?_, ?_, ?_⟩
  · simp only [applyConvenience]
    rw [h, condOr_true]
    exact or_or_self _ _
  · intro hx
    simp only [applyConvenience]
    apply condOr_includes
    apply condOr_includes
    apply condOr_includes
    apply condOr_includes
    apply condOr_includes
    rw [hx, Bool.or_true, condOr_true]
    exact or_or_self _ _
  · intro hx
    simp only [applyConvenience]
    apply condOr_includes
    apply condOr_includes
    apply condOr_includes
    apply condOr_includes
    rw [hx, Bool.or_true, condOr_true]
    exact or_or_self _ _
  · intro hx
    simp only [applyConvenience]
    apply condOr_includes
    apply condOr_includes
    apply condOr_includes
    rw [hx, Bool.or_true, condOr_true]
    exact or_or_self _ _
  · intro hx
    simp only [applyConvenience]
    apply condOr_includes
    apply condOr_includes
    rw [hx, Bool.or_true, condOr_true]
    exact or_or_self _ _
  · intro hx
    simp only [applyConvenience]
    apply condOr_includes
    rw [hx, Bool.or_true, condOr_true]
    exact or_or_self _ _

/-- `mount -rbind -make-rshared -make-runbindable`. -/
def cW5 : Invoc := { rbind := true, makeRShared := true, makeRUnbindable := true }

/-- Witness for C5: three recursive flags at once. -/
theorem C5_recursive_convenience_witness :
    applyConvenience cW5 0 ||| (MS_BIND ||| MS_REC) = applyConvenience cW5 0 ∧
    applyConvenience cW5 0 ||| MS_BIND = applyConvenience cW5 0 ∧
    applyConvenience cW5 0 ||| MS_SHARED = applyConvenience cW5 0 ∧
    applyConvenience cW5 0 ||| MS_UNBINDABLE = applyConvenience cW5 0 := by
  obtain ⟨h1, h2, h3, _, _, h6⟩ := C5_recursive_convenience cW5 0 rfl
  exact ⟨h1, h2 rfl, h3 rfl, h6 rfl⟩

/-- **C6**: in the explicit-type path, when `mount.Mount` fails the
error is reported in the outcome, `informIfUnknownFS` is consulted,
the hint listing the known types is printed whenever the probe read
succeeds and the requested type is not among them, and the exit status
is 1 whether or not the hint was produced. -/
theorem C6_typed_failure (readFile : ReadFile) (tbl : OptsTable)
    (ls : LoopSetup) (tm : TryMountFn) (mt : MountFn) (inv : Invoc)
    (e dev' : String) (flags : Nat) (tr data : List String)
    (hfr : firstReadable readFile mountTablePaths = none)
    (hargs : ¬ inv.args.length < 2)
    (ht : ¬ inv.fsType = "")
    (hro : runOptions tbl ls inv.options (argDev inv.args) 0 [] =
      (tr, .ok (dev', flags, data)))
    (hm : mt dev' (argPath inv.args) inv.fsType (joinComma data)
      (applyConvenience inv flags) = .error e) :
    mainRun readFile tbl ls tm mt inv =
      .mountTypedFail e (informIfUnknownFS readFile inv.fsType) ∧
    exitCode (mainRun readFile tbl ls tm mt inv) = 1 ∧
    (∀ content, readFile "/proc/filesystems" = .ok content →
      inv.fsType ∉ lastFields content →
      informIfUnknownFS readFile inv.fsType = some (lastFields content)) := by
  have hmain := mainRun_typed_fail readFile tbl ls tm mt inv e dev' flags
    tr data hfr hargs ht hro hm
  refine ⟨hmain, by rw [hmain]; rfl, ?_⟩
  intro content hc hnot
  rw [informIfUnknownFS_ok readFile content inv.fsType hc, if_neg hnot]

/-- Witness for C6: `mount -t ext9 /dev/sda1 /mnt` where the listing
knows only `sysfs` and `ext4`. -/
theorem C6_typed_failure_witness :
    mainRun rfProcW tblW lsW tmW mtW invC6 =
      .mountTypedFail "mount failed" (informIfUnknownFS rfProcW "ext9") ∧
    exitCode (mainRun rfProcW tblW lsW tmW mtW invC6) = 1 ∧
    informIfUnknownFS rfProcW "ext9" =
      some (lastFields "nodev\tsysfs\next4\n") := by
  obtain ⟨h1, h2, h3⟩ := C6_typed_failure rfProcW tblW lsW tmW mtW invC6
    "mount failed" "/dev/sda1" 0 [] [] rfl (by decide) (by decide) rfl rfl
  exact ⟨h1, h2, h3 "nodev\tsysfs\next4\n" rfl (by decide)⟩

/-- **C7**: the prober splits its input into lines, each line into
whitespace-separated fields, takes the last field of each line as a
type name, builds the list in line order, and reports the queried type
as known exactly when it equals the last field of some line. -/
theorem C7_prober_last_fields (readFile : ReadFile) (content t : String)
    (h : readFile "/proc/filesystems" = .ok content) :
    getSupportedFilesystem readFile t =
      (lastFields content, decide (t ∈ lastFields content), none) :=
  gsf_ok readFile content t h

/-- Witness for C7. -/
theorem C7_prober_last_fields_witness :
    getSupportedFilesystem rfProcW "ext4" =
      (lastFields "nodev\tsysfs\next4\n",
        decide ("ext4" ∈ lastFields "nodev\tsysfs\next4\n"), none) :=
  C7_prober_last_fields rfProcW "nodev\tsysfs\next4\n" "ext4" rfl

/-- **C8**: a failed probe read is silently swallowed:
`informIfUnknownFS` prints nothing, the failure goes no further, and
the primary mount-error report and the non-zero exit are unchanged. -/
theorem C8_probe_failure_swallowed (readFile : ReadFile) (tbl : OptsTable)
    (ls : LoopSetup) (tm : TryMountFn) (mt : MountFn) (inv : Invoc)
    (e msg dev' : String) (flags : Nat) (tr data : List String)
    (hpf : readFile "/proc/filesystems" = .error msg)
    (hfr : firstReadable readFile mountTablePaths = none)
    (hargs : ¬ inv.args.length < 2)
    (ht : ¬ inv.fsType = "")
    (hro : runOptions tbl ls inv.options (argDev inv.args) 0 [] =
      (tr, .ok (dev', flags, data)))
    (hm : mt dev' (argPath inv.args) inv.fsType (joinComma data)
      (applyConvenience inv flags) = .error e) :
    informIfUnknownFS readFile inv.fsType = none ∧
    getSupportedFilesystem readFile inv.fsType = ([], false, some msg) ∧
    mainRun readFile tbl ls tm mt inv = .mountTypedFail e none ∧
    exitCode (mainRun readFile tbl ls tm mt inv) = 1 := by
  have hinf := informIfUnknownFS_error readFile msg inv.fsType hpf
  have hmain := mainRun_typed_fail readFile tbl ls tm mt inv e dev' flags
    tr data hfr hargs ht hro hm
  rw [hinf] at hmain
  exact ⟨hinf, gsf_error readFile msg inv.fsType hpf, hmain,
    by rw [hmain]; rfl⟩

/-- Witness for C8: nothing is readable at all; the typed mount still
fails with exit 1 and no hint. -/
theorem C8_probe_failure_swallowed_witness :
    informIfUnknownFS rfNoneW "ext9" = none ∧
    getSupportedFilesystem rfNoneW "ext9" = ([], false, some "ENOENT") ∧
    mainRun rfNoneW tblW lsW tmW mtW invC6 =
      .mountTypedFail "mount failed" none ∧
    exitCode (mainRun rfNoneW tblW lsW tmW mtW invC6) = 1 :=
  C8_probe_failure_swallowed rfNoneW tblW lsW tmW mtW invC6 "mount failed"
    "ENOENT" "/dev/sda1" 0 [] [] rfl rfl (by decide) (by decide) rfl rfl

/-- **C9**: the per-line last-field indexing is guarded: a line with
zero whitespace fields is skipped and contributes no entry, every
entry of the returned list is the last field of some line, and a
successful read returns a nil error. -/
theorem C9_blank_lines_guarded (readFile : ReadFile) (content t : String)
    (h : readFile "/proc/filesystems" = .ok content) :
    getSupportedFilesystem readFile t =
      (lastFields content, decide (t ∈ lastFields content), none) ∧
    (∀ x ∈ lastFields content, ∃ line ∈ splitLines content,
      (goFields line).getLast? = some x) ∧
    (lastFields content).length =
      ((splitLines content).filter (fun l => !(goFields l).isEmpty)).length := by
  refine ⟨gsf_ok readFile content t h, ?_, length_filterMap_getLast _⟩
  intro x hx
  simp only [lastFields] at hx
  exact List.mem_filterMap.mp hx

/-- Witness for C9: a listing with a blank line inside. -/
theorem C9_blank_lines_guarded_witness :
    getSupportedFilesystem rfBlankW "ext4" =
      (lastFields "nodev\tsysfs\n\next4\n",
        decide ("ext4" ∈ lastFields "nodev\tsysfs\n\next4\n"), none) ∧
    (∀ x ∈ lastFields "nodev\tsysfs\n\next4\n",
      ∃ line ∈ splitLines "nodev\tsysfs\n\next4\n",
        (goFields line).getLast? = some x) ∧
    (lastFields "nodev\tsysfs\n\next4\n").length =
      ((splitLines "nodev\tsysfs\n\next4\n").filter
        (fun l => !(goFields l).isEmpty)).length :=
  C9_blank_lines_guarded rfBlankW "nodev\tsysfs\n\next4\n" "ext4" rfl

/-- **C10**: positional arguments beyond the first two are silently
ignored: the device is exactly the first argument, the mount path
exactly the second, and the outcome of `main` is unchanged when the
extra arguments are dropped. -/
theorem C10_extra_args_ignored (readFile : ReadFile) (tbl : OptsTable)
    (ls : LoopSetup) (tm : TryMountFn) (mt : MountFn) (inv : Invoc)
    (a0 a1 : String) (rest : List String)
    (h : inv.args = a0 :: a1 :: rest) :
    argDev inv.args = a0 ∧ argPath inv.args = a1 ∧
    mainRun readFile tbl ls tm mt inv =
      mainRun readFile tbl ls tm mt { inv with args := [a0, a1] } := by
  obtain ⟨ro, ft, bd, rb, s1, s2, s3, s4, r1, r2, r3, r4, opts, args⟩ := inv
  have h' : args = a0 :: a1 :: rest := h
  subst h'
  refine ⟨rfl, ?_, ?_⟩
  · rw [argPath, if_pos (by simp only [List.length_cons]; omega)]
    rfl
  · cases hfr : firstReadable readFile mountTablePaths with
    | some b =>
        rw [mainRun_list readFile tbl ls tm mt _ b hfr,
          mainRun_list readFile tbl ls tm mt _ b hfr]
    | none =>
        have hlen : ¬ (a0 :: a1 :: rest).length < 2 := by
          simp only [List.length_cons]; omega
        have hlen2 : ¬ ([a0, a1] : List String).length < 2 := by simp
        have hp : argPath (a0 :: a1 :: rest) = argPath [a0, a1] := by
          rw [argPath, if_pos (by simp only [List.length_cons]; omega),
            argPath, if_pos (by simp)]
          rfl
        have hd : argDev (a0 :: a1 :: rest) = argDev [a0, a1] := rfl
        have hac : ∀ f : Nat,
            applyConvenience
              ⟨ro, ft, bd, rb, s1, s2, s3, s4, r1, r2, r3, r4, opts,
                a0 :: a1 :: rest⟩ f =
            applyConvenience
              ⟨ro, ft, bd, rb, s1, s2, s3, s4, r1, r2, r3, r4, opts,
                [a0, a1]⟩ f := fun f => rfl
        simp only [mainRun, hfr, if_neg hlen, if_neg hlen2]
        rw [hp, hd]
        simp only [hac]

/-- Witness for C10: a third positional argument `junk` is ignored. -/
theorem C10_extra_args_ignored_witness :
    argDev ["/dev/sda1", "/mnt", "junk"] = "/dev/sda1" ∧
    argPath ["/dev/sda1", "/mnt", "junk"] = "/mnt" ∧
    mainRun rfNoneW tblW lsW tmW mtW { args := ["/dev/sda1", "/mnt", "junk"] } =
      mainRun rfNoneW tblW lsW tmW mtW { args := ["/dev/sda1", "/mnt"] } :=
  C10_extra_args_ignored rfNoneW tblW lsW tmW mtW
    { args := ["/dev/sda1", "/mnt", "junk"] } "/dev/sda1" "/mnt" ["junk"] rfl

end MountCmd
